import Mathlib

/-!
# Verification of the quax interception layer (`quax/_core.py`)

A shallow embedding of the quax core: the `Value` hierarchy, the dispatch
registry, the trace interpreter (`_QuaxTrace.pure`, `process_primitive`,
`_default_process`), the wrap/unwrap boundary of `_Quaxify.__call__`, the
custom-JVP output reconciliation of `_custom_jvp_jvp_wrap`, and the
registered `pjit` rule.

Arrays of the host framework (JAX) are modelled as lists of integers;
Python exceptions are modelled with `Except`.  User-defined `Value`
subclasses are modelled by a numeric type tag interpreted through a
`TypeEnv` that records, per tag, the identity of the `default` override
the class sees (`type(x).default`), its `materialise` behaviour, and its
printable name.  Two distinct subclasses inheriting the same `default`
override from a common ancestor thus carry the same override identity,
exactly as two Python classes share one bound function object.
-/

namespace Quax

/-- A plain dense array of the host framework. -/
abbrev Arr := List Int

/-- The keyword parameters of a primitive bind (`**params`), passed through
uninspected by dispatch; modelled opaquely as a list of integers. -/
abbrev Params := List Int

/-- The Python exceptions raised by the quax core. -/
inductive QErr where
  /-- The `TypeError` from `_QuaxTrace.pure`: a Value instance reached the
  pure-injection path; the message names the offending type. -/
  | boundaryViolation (tyName : String)
  /-- The `TypeError` from `_QuaxTrace.pure`: not a JAX type. -/
  | notJaxType (tyName : String)
  /-- The `TypeError` from `_default_process`: multiple array-ish types specify
  default process rules; carries the set of operand types from the message. -/
  | ambiguousDefaults (types : List String)
  /-- A `materialise()` implementation raised; carries the type name. -/
  | materialiseError (tyName : String)
  /-- The `ValueError` from `_custom_jvp_jvp_wrap`: primals and tangents had the
  same class but different flattened results. -/
  | structuralMismatch
  /-- Any other host-framework or user exception. -/
  | other (msg : String)
deriving DecidableEq, Repr

/-- A `quax.Value` instance: either the internal `_DenseArrayValue` wrapping
a plain array, or an instance of a user-defined subclass, identified by a
type tag `ty` and carrying its flattened leaves as payload. -/
inductive Value where
  | dense (a : Arr)
  | custom (ty : Nat) (payload : List Arr)
deriving DecidableEq, Repr

/-- The union `Union[ArrayLike, Value]`: the unwrapped operands seen by dispatch rules
and by `_default_process` (a `_DenseArrayValue` has been unwrapped to its
plain array before this point). -/
inductive Operand where
  | arr (a : Arr)
  | val (v : Value)
deriving DecidableEq, Repr

/-- A `_QuaxTracer`: pairs the (implicit) trace with exactly one `Value`
payload. -/
structure Tracer where
  value : Value
deriving DecidableEq, Repr

/-- The result object returned by a dispatch rule or by `primitive.bind`:
a single result object, or a sequence of results for a primitive with
`multiple_results`. -/
inductive PyOut where
  | one (x : Operand)
  | many (xs : List Operand)
deriving DecidableEq, Repr

/-- The value returned by `_QuaxTrace.process_primitive`: one tracer, or a
list of tracers when the primitive declares `multiple_results`. -/
inductive ProcOut where
  | single (t : Tracer)
  | multi (ts : List Tracer)
deriving DecidableEq, Repr

/-- Interpretation of user-defined `Value` subclass tags. -/
structure TypeEnv where
  /-- The printable name of the class (`type(x)` in error messages). -/
  name : Nat → String
  /-- The identity of `type(x).default` when the class overrides the base
  `Value.default`; `none` when it inherits the base method.  Two classes
  inheriting one override from a common ancestor share the same identity. -/
  overrideId : Nat → Option Nat
  /-- The `materialise()` implementation of the class; may raise. -/
  materialiseTy : Nat → List Arr → Except String Arr
  /-- The behaviour of each `default` override, as a function of the
  primitive id, the operands and the parameters. -/
  overrideImpl : Nat → Nat → List Operand → Params → Except QErr PyOut

/-- A JAX primitive: its identity, its `multiple_results` flag, and its
built-in implementation (`primitive.bind` on plain arrays). -/
structure Prim where
  id : Nat
  multiple_results : Bool
  impl : List Arr → Params → PyOut

/-- The multiple-dispatch function stored in `_rules` for one primitive:
`resolve` models `plum`'s `resolve_method`, returning the matching method or
`none` for `NotFoundLookupError`. -/
structure DispatchFn where
  resolve : List Operand → Option (List Operand → Params → Except QErr PyOut)

/-- The global `_rules` registry, keyed by primitive identity. -/
structure Registry where
  rules : Nat → Option DispatchFn

/-- The method `Value.materialise`: a `_DenseArrayValue` materialises to its wrapped
array; a user subclass runs its own implementation, whose exception
surfaces to the caller. -/
def Value.materialise (env : TypeEnv) : Value → Except QErr Arr
  | .dense a => .ok a
  | .custom ty payload =>
      match env.materialiseTy ty payload with
      | .ok a => .ok a
      | .error _ => .error (.materialiseError (env.name ty))

/-- The base `Value.default` static method: materialise every non-array
operand, then invoke the built-in implementation
(`primitive.bind(*arrays, **params)`). -/
def Value.default (env : TypeEnv) (p : Prim) (values : List Operand)
    (params : Params) : Except QErr PyOut := do
  let arrays ← values.mapM fun x =>
    match x with
    | .arr a => Except.ok a
    | .val v => v.materialise env
  Except.ok (p.impl arrays params)

/-- One step of the `defaults`-set collection of `_default_process`: a
`Value` operand whose class overrides `type(x).default` adds the identity
of its override (`set.add`); a class whose `default` *is* `Value.default`
adds nothing; an array-like operand adds nothing.  The set is modelled as a
duplicate-free list in first-encounter order. -/
def overrideStep (env : TypeEnv) (acc : List Nat) (x : Operand) : List Nat :=
  match x with
  | .val (.custom ty _) =>
      match env.overrideId ty with
      | some k => if k ∈ acc then acc else acc ++ [k]
      | none => acc
  | _ => acc

/-- The `defaults` set of `_default_process`, folded over the operands. -/
def overridesOf (env : TypeEnv) (values : List Operand) : List Nat :=
  values.foldl (overrideStep env) []

/-- The `types` set of the ambiguity error message:
`{type(x) for x in values}`, as a duplicate-free list. -/
def typesOf (env : TypeEnv) (values : List Operand) : List String :=
  values.foldl
    (fun acc x =>
      let n :=
        match x with
        | .arr _ => "Array"
        | .val (.dense _) => "_DenseArrayValue"
        | .val (.custom ty _) => env.name ty
      if n ∈ acc then acc else acc ++ [n])
    []

/-- The function `_default_process`: collect the distinct `default` overrides among the
operands; zero overrides use the base `Value.default`, exactly one override
is used as the fallback, more than one raises `TypeError`.  The chosen
fallback runs inside `jax.ensure_compile_time_eval()` in the source, which
has no semantic effect here. -/
def _default_process (env : TypeEnv) (p : Prim) (values : List Operand)
    (params : Params) : Except QErr PyOut :=
  match overridesOf env values with
  | [] => Value.default env p values params
  | [k] => env.overrideImpl k p.id values params
  | _ => .error (.ambiguousDefaults (typesOf env values))

/-- The function `_wrap_if_array`: re-wrap a plain array as a `_DenseArrayValue`; leave a
`Value` untouched. -/
def _wrap_if_array : Operand → Value
  | .arr a => .dense a
  | .val v => v

/-- A Python object at the `quaxify` call boundary: a plain array, a raw
`Value`, a tracer, or some other (non-JAX) object with its type name. -/
inductive Leaf where
  | arr (a : Arr)
  | value (v : Value)
  | tracer (t : Tracer)
  | other (tyName : String)
deriving DecidableEq, Repr

/-- The printable type of the payload of a leaf, for error messages. -/
def leafTypeName (env : TypeEnv) : Leaf → String
  | .arr _ => "Array"
  | .value (.dense _) => "_DenseArrayValue"
  | .value (.custom ty _) => env.name ty
  | .tracer _ => "_QuaxTracer"
  | .other n => n

/-- The predicate `eqx.is_array_like`: plain arrays and tracers are array-like; `Value`
instances (equinox modules) and other objects are not. -/
def isArrayLike : Leaf → Bool
  | .arr _ => true
  | .tracer _ => true
  | .value _ => false
  | .other _ => false

/-- The method `_QuaxTrace.pure`: a raw `Value` reaching pure injection is a usage
error naming the offending type; a non-array-like object is not a JAX type;
a plain array is wrapped into a tracer carrying a `_DenseArrayValue`. -/
def _QuaxTrace.pure (env : TypeEnv) : Leaf → Except QErr Tracer
  | .value v => .error (.boundaryViolation (leafTypeName env (.value v)))
  | .arr a => .ok ⟨.dense a⟩
  | .tracer t => .ok t
  | .other n => .error (.notJaxType n)

/-- The method `trace.full_raise`: a tracer of this trace is returned as-is; any other
object goes through `_QuaxTrace.pure`. -/
def full_raise (env : TypeEnv) : Leaf → Except QErr Tracer
  | .tracer t => .ok t
  | l => _QuaxTrace.pure env l

/-- The function `_unwrap_tracer`: raise array-like leaves into tracers of this trace,
then extract a tracer payload, unwrapping a `_DenseArrayValue` down to its
plain array and leaving any other `Value` as-is; non-tracers pass through
unchanged. -/
def _unwrap_tracer (env : TypeEnv) (x : Leaf) : Except QErr Leaf := do
  let x ←
    if isArrayLike x then (full_raise env x).map Leaf.tracer
    else Except.ok x
  match x with
  | .tracer t =>
      match t.value with
      | .dense a => Except.ok (.arr a)
      | v => Except.ok (.value v)
  | _ => Except.ok x

/-- The unwrapping of operands at the head of
`_QuaxTrace.process_primitive`: take each tracer payload, unwrapping a
`_DenseArrayValue` further down to its plain array. -/
def unwrapTracers (tracers : List Tracer) : List Operand :=
  tracers.map fun t =>
    match t.value with
    | .dense a => .arr a
    | v => .val v

/-- The dispatch core of `_QuaxTrace.process_primitive`: no registry entry
runs `_default_process`; a registry entry whose resolution fails
(`plum.NotFoundLookupError`) runs `_default_process`; a resolved method is
invoked with the unwrapped operands and the original parameters.  The
boolean instruments whether a registered rule was invoked. -/
def dispatchStep (env : TypeEnv) (reg : Registry) (p : Prim)
    (values : List Operand) (params : Params) :
    Except QErr (PyOut × Bool) :=
  match reg.rules p.id with
  | none => (_default_process env p values params).map (fun o => (o, false))
  | some rule =>
      match rule.resolve values with
      | none => (_default_process env p values params).map (fun o => (o, false))
      | some method => (method values params).map (fun o => (o, true))

/-- The result wrapping at the tail of `_QuaxTrace.process_primitive`: when
the primitive declares `multiple_results`, each element of the result
sequence is wrapped independently into its own tracer, otherwise the single
result is wrapped.  A result whose shape contradicts the declaration is a
host-framework contract violation and raises. -/
def wrapResults (p : Prim) (out : PyOut) : Except QErr ProcOut :=
  if p.multiple_results then
    match out with
    | .many xs => .ok (.multi (xs.map fun x => Tracer.mk (_wrap_if_array x)))
    | .one _ => .error (.other "multiple_results primitive returned one result")
  else
    match out with
    | .one x => .ok (.single (Tracer.mk (_wrap_if_array x)))
    | .many _ => .error (.other "single-result primitive returned a sequence")

/-- The method `_QuaxTrace.process_primitive`: unwrap the operands, dispatch, wrap the
results into new tracers of the current trace. -/
def process_primitive (env : TypeEnv) (reg : Registry) (p : Prim)
    (tracers : List Tracer) (params : Params) :
    Except QErr (ProcOut × Bool) := do
  let (out, b) ← dispatchStep env reg p (unwrapTracers tracers) params
  let w ← wrapResults p out
  Except.ok (w, b)

/-!
## Programs

A wrapped user function is modelled as a straight-line program over
single-result primitives (an equation list in the style of a jaxpr): each
equation reads variables by index, binds one primitive, and appends one new
variable; one variable index is the output.
-/

/-- One equation of a program: a primitive applied to variables. -/
structure Eqn where
  prim : Prim
  invars : List Nat
  params : Params

/-- A straight-line program: equations plus the output variable index. -/
structure Program where
  eqns : List Eqn
  outvar : Nat

/-- Direct (unwrapped) evaluation of the equations: what the host framework
computes for `f(x)` with no quax interposed. -/
def evalDirectAux (eqns : List Eqn) (venv : List Arr) : Option (List Arr) :=
  match eqns with
  | [] => some venv
  | e :: rest => do
      let args ← e.invars.mapM fun i => venv[i]?
      match e.prim.impl args e.params with
      | .one (.arr a) => evalDirectAux rest (venv ++ [a])
      | _ => none

/-- Direct evaluation of a program on plain arrays: `f(x)`. -/
def evalDirect (prog : Program) (inputs : List Arr) : Option Arr := do
  let venv ← evalDirectAux prog.eqns inputs
  venv[prog.outvar]?

/-- Quaxified evaluation of the equations: every primitive bind is routed
through `_QuaxTrace.process_primitive`.  The boolean accumulates whether
any registered rule was invoked. -/
def evalQuaxAux (env : TypeEnv) (reg : Registry) (eqns : List Eqn)
    (venv : List Tracer) (consulted : Bool) :
    Except QErr (List Tracer × Bool) :=
  match eqns with
  | [] => .ok (venv, consulted)
  | e :: rest => do
      let args ←
        match e.invars.mapM (fun i => venv[i]?) with
        | some ts => Except.ok ts
        | none => Except.error (.other "unbound variable")
      let (out, b) ← process_primitive env reg e.prim args e.params
      match out with
      | .single t => evalQuaxAux env reg rest (venv ++ [t]) (consulted || b)
      | .multi _ => Except.error (.other "program equations are single-result")

/-- Wrapping of one input operand at the `quaxify` boundary: a `Value` goes
through `_wrap_tracer`, a plain array through `_QuaxTrace.pure` (performed
lazily on first use in the source, with the same resulting tracer). -/
def wrapInput : Operand → Tracer
  | .arr a => Tracer.mk (.dense a)
  | .val v => Tracer.mk v

/-- Evaluation of `quaxify(f)(*inputs)` for a program `f`: push a trace, wrap each input,
run the equations under interception, and unwrap the output via
`_unwrap_tracer`.  Returns the unwrapped output and whether any registered
rule was invoked. -/
def evalQuax (env : TypeEnv) (reg : Registry) (prog : Program)
    (inputs : List Operand) : Except QErr (Operand × Bool) := do
  let inTracers := inputs.map wrapInput
  let (venv, b) ← evalQuaxAux env reg prog.eqns inTracers false
  let t ←
    match venv[prog.outvar]? with
    | some t => Except.ok t
    | none => Except.error (.other "unbound output variable")
  let outLeaf ← _unwrap_tracer env (.tracer t)
  match outLeaf with
  | .arr a => Except.ok (Operand.arr a, b)
  | .value v => Except.ok (Operand.val v, b)
  | _ => Except.error (.other "unexpected unwrap result")

/-!
## Flattening and the pjit rule

`jtu.tree_flatten` on a list of `Union[Value, ArrayLike]` objects: a plain
array is a leaf; a `_DenseArrayValue` is a module node holding one array
field; a user `Value` is a module node holding its payload leaves.  The
treedef records the node kind.
-/

/-- The treedef of one flattened object. -/
inductive TreeDef where
  | leaf
  | denseNode
  | node (ty : Nat) (n : Nat)
deriving DecidableEq, Repr

/-- The `tree_flatten` of one object: its leaves and its treedef. -/
def flattenItem : Operand → List Arr × TreeDef
  | .arr a => ([a], .leaf)
  | .val (.dense a) => ([a], .denseNode)
  | .val (.custom ty p) => (p, .node ty p.length)

/-- The `tree_flatten` of a list of objects: concatenated leaves and the list
of treedefs. -/
def flattenItems : List Operand → List Arr × List TreeDef
  | [] => ([], [])
  | o :: os =>
      let (l, td) := flattenItem o
      let (ls, tds) := flattenItems os
      (l ++ ls, td :: tds)

/-- The `tree_unflatten` of one object: consume the leaves this treedef needs
and rebuild the object. -/
def unflattenItem : TreeDef → List Arr → Operand × List Arr
  | .leaf, a :: rest => (.arr a, rest)
  | .leaf, [] => (.arr [], [])
  | .denseNode, a :: rest => (.val (.dense a), rest)
  | .denseNode, [] => (.val (.dense []), [])
  | .node ty n, xs => (.val (.custom ty (xs.take n)), xs.drop n)

/-- The `tree_unflatten` of a list of objects. -/
def unflattenItems : List TreeDef → List Arr → List Operand
  | [], _ => []
  | td :: tds, xs =>
      let (o, rest) := unflattenItem td xs
      o :: unflattenItems tds rest

/-- Modelled from the spec: the host framework compilation entry point
(`jax.jit`), callable on a plain (non-intercepted) function (section 6 of
the specification).  Compilation is semantics-preserving, so it is modelled
as plain application. -/
def jaxJit {α : Type} (f : List Arr → α) (x : List Arr) : α := f x

/-- The registered rule for `pjit_p`: with `inline`, re-run the inner jaxpr
as an ordinary quaxified function over the already-unwrapped operands; with
`inline=False`, flatten the operands away from their `Value` structure,
build a plain wrapped function over the flattened form, and re-invoke the
host compilation entry point on it (inside `jax.ensure_compile_time_eval()`
in the source, with no semantic effect here). -/
def pjitRule (env : TypeEnv) (reg : Registry) (jaxpr : Program)
    (inline : Bool) (args : List Operand) : Except QErr (Operand × Bool) :=
  if inline then evalQuax env reg jaxpr args
  else
    let leavesTreedef := flattenItems args
    let flatFun := fun xs =>
      evalQuax env reg jaxpr (unflattenItems leavesTreedef.2 xs)
    jaxJit flatFun leavesTreedef.1

/-!
## Custom-JVP output reconciliation

The output half of `_custom_jvp_jvp_wrap`: after the derivative sub-function
ran, its outputs are split into primals and tangents, paired positionally,
reconciled when the classes of a pair differ, re-flattened, and checked for
structural agreement.
-/

/-- The class `primal.__class__` as a comparable identity: `none` for
`_DenseArrayValue`, the type tag for a user subclass. -/
def classOf : Value → Option Nat
  | .dense _ => none
  | .custom ty _ => some ty

/-- One pair of the reconciliation loop: when the classes differ, both
members are forced through `materialise()`; otherwise the pair is kept
as-is. -/
def jvpReconcilePair (env : TypeEnv) (primal tangent : Value) :
    Except QErr (Operand × Operand) :=
  if classOf primal ≠ classOf tangent then do
    let p ← primal.materialise env
    let t ← tangent.materialise env
    Except.ok (.arr p, .arr t)
  else Except.ok (.val primal, .val tangent)

/-- The output processing of `_custom_jvp_jvp_wrap`: split the outputs into
primals and tangents, reconcile each positional pair, re-flatten both
collections, and raise `ValueError` when their flattened treedefs still
disagree; otherwise return the flattened primals and tangents with the
shared treedef. -/
def _custom_jvp_jvp_wrap_out (env : TypeEnv) (outValues : List Value) :
    Except QErr (List Arr × List TreeDef) := do
  let n := outValues.length / 2
  let outPrimalValues := outValues.take n
  let outTangentValues := outValues.drop n
  let pairs ← (outPrimalValues.zip outTangentValues).mapM fun pt =>
    jvpReconcilePair env pt.1 pt.2
  let flatPrimal := flattenItems (pairs.map Prod.fst)
  let flatTangent := flattenItems (pairs.map Prod.snd)
  if flatPrimal.2 ≠ flatTangent.2 then
    Except.error .structuralMismatch
  else
    Except.ok (flatPrimal.1 ++ flatTangent.1, flatPrimal.2)

/-!
## The public entry point

`_Quaxify.__call__` enters `with core.new_main(_QuaxTrace, dynamic=True)`,
runs the wrap/call/unwrap body, and the `with` statement pops the pushed
trace-context on every exit path.  The stack of trace-contexts is explicit;
an exception escaping the body is an `Except.error` result.
-/

/-- The stack of trace-contexts (`core.new_main` mains). -/
abbrev TraceStack := List Nat

/-- The method `_Quaxify.__call__`: push a fresh trace-context, run the body (wrap the
arguments, call the function, unwrap the results — abstracted as `body`,
which may itself push and pop nested contexts and may raise), then pop the
context this call pushed, on the normal path and on the raising path alike,
and propagate the body result unchanged. -/
def quaxifyCall {α : Type} (body : TraceStack → Except QErr α × TraceStack)
    (s : TraceStack) : Except QErr α × TraceStack :=
  let ctx := s.length
  let s1 := ctx :: s
  let r := body s1
  (r.1, r.2.tail)

/-!
## Concrete instances

A small concrete `TypeEnv` and registry used to evaluate the development on
explicit inputs.  Tags 0 and 1 are two subclasses with two distinct
`default` overrides; tags 2 and 3 are two distinct subclasses inheriting
one and the same `default` override from a common ancestor; every class
materialises by concatenating its payload leaves.
-/

/-- Extract a plain array from an operand; `none` for a `Value`. -/
def asArray : Operand → Option Arr
  | .arr a => some a
  | .val _ => none

/-- The concrete type environment: tags 0 and 1 carry distinct overrides 0
and 1; tags 2 and 3 share override 2; every other tag inherits the base
`Value.default`. -/
def env0 : TypeEnv where
  name := fun ty =>
    if ty = 0 then "TypeA" else if ty = 1 then "TypeB"
    else if ty = 2 then "TypeC" else if ty = 3 then "TypeD" else "TypeE"
  overrideId := fun ty =>
    if ty = 0 then some 0 else if ty = 1 then some 1
    else if ty = 2 then some 2 else if ty = 3 then some 2 else none
  materialiseTy := fun _ payload => .ok payload.flatten
  overrideImpl := fun k _ _ _ => .ok (.one (.arr [Int.ofNat k]))

/-- Element-wise increment: the built-in implementation of the example
primitive. -/
def arrAddOne (a : Arr) : Arr := a.map fun x => x + 1

/-- An unregistered single-result primitive. -/
def addOneP : Prim where
  id := 1
  multiple_results := false
  impl := fun args _ =>
    match args with
    | [a] => .one (.arr (arrAddOne a))
    | _ => .many []

/-- A primitive with `multiple_results`: returns its operands unchanged as
a sequence. -/
def dupP : Prim where
  id := 2
  multiple_results := true
  impl := fun args _ => .many (args.map .arr)

/-- The inner jaxpr of the compiled-subgraph example: one `addOneP`
equation. -/
def subProg : Program := ⟨[⟨addOneP, [0], []⟩], 1⟩

/-- The `pjit` primitive of the example: its built-in implementation runs
the inner jaxpr directly. -/
def pjitP : Prim where
  id := 0
  multiple_results := false
  impl := fun args _ =>
    match evalDirect subProg args with
    | some a => .one (.arr a)
    | _ => .many []

/-- The registered `pjit` rule of the source, bound to a registry for its
recursive quaxified call: re-run the inner jaxpr as an ordinary quaxified
function over the operands (the `inline=True` path taken by the example). -/
def pjitMethod (reg : Registry) (ops : List Operand) (_params : Params) :
    Except QErr PyOut :=
  (pjitRule env0 reg subProg true ops).map fun r => .one r.1

/-- The dispatch function the source registers for `pjit_p`: its signature
`*args: Union[ArrayLike, ArrayValue]` matches every operand list, so
resolution always succeeds. -/
def pjitDispatch (reg : Registry) : DispatchFn := ⟨fun _ => some (pjitMethod reg)⟩

/-- The global registry with the `pjit` rule registered, stratified by a
recursion depth so the registry seen by the nested quaxified call is one
level shallower (the example program nests `pjit` only once). -/
def regFuel : Nat → Registry
  | 0 => ⟨fun _ => none⟩
  | n + 1 => ⟨fun i => if i = 0 then some (pjitDispatch (regFuel n)) else none⟩

/-- The example wrapped program: one `pjit` call on the input. -/
def mainProg : Program := ⟨[⟨pjitP, [0], []⟩], 1⟩

/-!
## Helper lemmas
-/

/-- Bind on a successful `Except` computation reduces to the
continuation. -/
theorem except_ok_bind {ε α β : Type} (a : α) (f : α → Except ε β) :
    (Except.ok a : Except ε α) >>= f = f a := rfl

/-- Bind on a failed `Except` computation propagates the error. -/
theorem except_error_bind {ε α β : Type} (e : ε) (f : α → Except ε β) :
    (Except.error e : Except ε α) >>= f = Except.error e := rfl

/-- Unflattening inverts flattening of an operand list. -/
theorem unflattenItems_flattenItems (args : List Operand) :
    unflattenItems (flattenItems args).2 (flattenItems args).1 = args := by
  suffices h : ∀ (args : List Operand) (rest : List Arr),
      unflattenItems (flattenItems args).2 ((flattenItems args).1 ++ rest)
        = args ∧ True by
    have := (h args []).1
    simpa using this
  intro args
  induction args with
  | nil => intro rest; simp [flattenItems, unflattenItems]
  | cons o os ih =>
      intro rest
      refine ⟨?_, trivial⟩
      cases o with
      | arr a =>
          simp only [flattenItems, flattenItem, unflattenItems, unflattenItem,
            List.cons_append, List.append_assoc]
          exact congrArg (Operand.arr a :: ·) ((ih (rest)).1)
      | val v =>
          cases v with
          | dense a =>
              simp only [flattenItems, flattenItem, unflattenItems, unflattenItem,
                List.cons_append, List.append_assoc]
              exact congrArg (Operand.val (Value.dense a) :: ·) ((ih (rest)).1)
          | custom ty p =>
              simp only [flattenItems, flattenItem, unflattenItems, unflattenItem,
                List.append_assoc]
              rw [List.take_left, List.drop_left]
              exact congrArg (Operand.val (Value.custom ty p) :: ·) ((ih (rest)).1)

/-- Bind on a present `Option` computation reduces to the continuation. -/
theorem option_some_bind {α β : Type} (a : α) (f : α → Option β) :
    (some a >>= f) = f a := rfl

/-- Looking variables up in a mapped environment maps the looked-up
values. -/
theorem mapM_get?_map {α β : Type} (f : α → β) (xs : List Nat) :
    ∀ (l : List α) (args : List α),
      xs.mapM (fun i => l[i]?) = some args →
      xs.mapM (fun i => (l.map f)[i]?) = some (args.map f) := by
  induction xs with
  | nil => intro l args h; cases h; rfl
  | cons x xs ih =>
      intro l args h
      rw [List.mapM_cons] at h ⊢
      cases hx : l[x]? with
      | none => rw [hx] at h; simp at h
      | some v =>
          rw [hx] at h
          cases hrest : xs.mapM (fun i => l[i]?) with
          | none => rw [hrest] at h; simp at h
          | some vs =>
              rw [hrest] at h
              simp only [Option.pure_def, Option.bind_eq_bind,
                option_some_bind] at h
              cases h
              rw [List.getElem?_map, hx, ih l vs hrest]
              rfl

/-- Folding the `defaults` collection over plain-array operands leaves the
accumulator unchanged. -/
theorem foldl_overrideStep_arr (env : TypeEnv) (l : List Arr) :
    ∀ acc, List.foldl (overrideStep env) acc (l.map Operand.arr) = acc := by
  induction l with
  | nil => intro acc; rfl
  | cons a rest ih => intro acc; exact ih acc

/-- Plain-array operands contribute no `default` override. -/
theorem overridesOf_map_arr (env : TypeEnv) (l : List Arr) :
    overridesOf env (l.map Operand.arr) = [] :=
  foldl_overrideStep_arr env l []

/-- The base `Value.default` on plain-array operands invokes the built-in
implementation directly: every operand materialises to itself. -/
theorem value_default_map_arr (env : TypeEnv) (p : Prim) (l : List Arr)
    (params : Params) :
    Value.default env p (l.map Operand.arr) params =
      Except.ok (p.impl l params) := by
  have harr : (l.map Operand.arr).mapM
      (fun x => match x with
        | .arr a => Except.ok a
        | .val v => v.materialise env) = (Except.ok l : Except QErr (List Arr)) := by
    induction l with
    | nil => rfl
    | cons a rest ih =>
        rw [List.map_cons, List.mapM_cons, ih]
        rfl
  rw [Value.default, harr, except_ok_bind]

/-- Unwrapping dense tracers yields the wrapped plain arrays. -/
theorem unwrapTracers_map_dense (l : List Arr) :
    unwrapTracers (l.map fun a => Tracer.mk (Value.dense a)) =
      l.map Operand.arr := by
  rw [unwrapTracers, List.map_map]
  rfl

/-- On all-plain-array operands, dispatch yields the built-in result of the
primitive whenever every registered rule that resolves there returns the
built-in result (vacuously when the primitive is unregistered or
resolution signals not-found). -/
theorem dispatchStep_map_arr (env : TypeEnv) (reg : Registry) (p : Prim)
    (l : List Arr) (params : Params)
    (H : ∀ rule m, reg.rules p.id = some rule →
      rule.resolve (l.map Operand.arr) = some m →
      m (l.map Operand.arr) params = Except.ok (p.impl l params)) :
    ∃ b, dispatchStep env reg p (l.map Operand.arr) params =
      Except.ok (p.impl l params, b) := by
  cases hreg : reg.rules p.id with
  | none =>
      refine ⟨false, ?_⟩
      simp only [dispatchStep, hreg, _default_process, overridesOf_map_arr,
        value_default_map_arr]
      rfl
  | some rule =>
      cases hres : rule.resolve (l.map Operand.arr) with
      | none =>
          refine ⟨false, ?_⟩
          simp only [dispatchStep, hreg, hres, _default_process,
            overridesOf_map_arr, value_default_map_arr]
          rfl
      | some m =>
          refine ⟨true, ?_⟩
          simp only [dispatchStep, hreg, hres, H rule m hreg hres]
          rfl

/-- Bind on an absent `Option` computation stays absent. -/
theorem option_none_bind {α β : Type} (f : α → Option β) :
    ((none : Option α) >>= f) = none := rfl

/-- The rule hypothesis of the transparency law, for one equation: the
primitive is single-result and any resolved registered rule is transparent
on plain arrays. -/
def EqnTransparent (reg : Registry) (e : Eqn) : Prop :=
  e.prim.multiple_results = false ∧
  ∀ rule m (l : List Arr) params,
    reg.rules e.prim.id = some rule →
    rule.resolve (l.map Operand.arr) = some m →
    m (l.map Operand.arr) params = Except.ok (e.prim.impl l params)

/-- The interpreter invariant of the transparency law: over a dense-tracer
environment mirroring the direct array environment, the quaxified
evaluation of the equations mirrors the direct evaluation, every
intermediate staying a dense tracer. -/
theorem evalQuaxAux_transparent (env : TypeEnv) (reg : Registry) :
    ∀ (eqns : List Eqn), (∀ e ∈ eqns, EqnTransparent reg e) →
      ∀ (denv dres : List Arr) (c : Bool),
        evalDirectAux eqns denv = some dres →
        ∃ b, evalQuaxAux env reg eqns
            (denv.map fun a => Tracer.mk (Value.dense a)) c =
          Except.ok (dres.map fun a => Tracer.mk (Value.dense a), b) := by
  intro eqns
  induction eqns with
  | nil =>
      intro _ denv dres c hd
      rw [evalDirectAux] at hd
      cases hd
      exact ⟨c, rfl⟩
  | cons e rest ih =>
      intro H denv dres c hd
      have He : EqnTransparent reg e := H e (List.mem_cons_self e rest)
      rw [evalDirectAux] at hd
      cases hargs : e.invars.mapM (fun i => denv[i]?) with
      | none => rw [hargs, option_none_bind] at hd; exact absurd hd (by simp)
      | some args =>
          rw [hargs, option_some_bind] at hd
          cases himpl : e.prim.impl args e.params with
          | one x =>
              cases x with
              | val v => rw [himpl] at hd; simp at hd
              | arr a =>
                  rw [himpl] at hd
                  obtain ⟨b0, hdisp⟩ := dispatchStep_map_arr env reg e.prim
                    args e.params
                    (fun rule m hr hres => He.2 rule m args e.params hr hres)
                  obtain ⟨b, hq⟩ := ih
                    (fun e' he' => H e' (List.mem_cons_of_mem e he'))
                    (denv ++ [a]) dres (c || b0) hd
                  refine ⟨b, ?_⟩
                  have hlook := mapM_get?_map
                    (fun a => Tracer.mk (Value.dense a)) e.invars denv args hargs
                  simp only [List.map_append, List.map_cons, List.map_nil] at hq
                  simp only [evalQuaxAux, hlook, except_ok_bind,
                    process_primitive, unwrapTracers_map_dense, hdisp, himpl,
                    wrapResults, He.1]
                  simpa using hq
          | many xs => rw [himpl] at hd; simp at hd

/-!
## Claims
-/

/-- Claim C2. When the trace interpreter intercepts a primitive: with no
registry entry, Default Materialization runs; with a registry entry whose
resolution signals not-found, Default Materialization runs (not-found is
never a hard failure, the result is exactly the Default Materialization
result); with a resolved method, that method is invoked with the unwrapped
operands and the original parameters, in preference to Default
Materialization. -/
theorem C2_dispatch_precedence (env : TypeEnv) (reg : Registry) (p : Prim)
    (tracers : List Tracer) (params : Params) :
    (reg.rules p.id = none →
      dispatchStep env reg p (unwrapTracers tracers) params =
        (_default_process env p (unwrapTracers tracers) params).map
          (fun o => (o, false)))
  ∧ (∀ rule, reg.rules p.id = some rule →
      rule.resolve (unwrapTracers tracers) = none →
      dispatchStep env reg p (unwrapTracers tracers) params =
        (_default_process env p (unwrapTracers tracers) params).map
          (fun o => (o, false)))
  ∧ (∀ rule m, reg.rules p.id = some rule →
      rule.resolve (unwrapTracers tracers) = some m →
      dispatchStep env reg p (unwrapTracers tracers) params =
        (m (unwrapTracers tracers) params).map (fun o => (o, true))) := by
  refine ⟨fun h => ?_, fun rule h hr => ?_, fun rule m h hr => ?_⟩
  · simp only [dispatchStep, h]
  · simp only [dispatchStep, h, hr]
  · simp only [dispatchStep, h, hr]

/-- Witness for C2: a primitive absent from the registry falls back to
Default Materialization, and the registered `pjit` rule, which resolves,
is invoked with the unwrapped operands. -/
theorem C2_dispatch_precedence_witness :
    (dispatchStep env0 (regFuel 0) addOneP
        (unwrapTracers [Tracer.mk (Value.dense [3])]) [] =
      (_default_process env0 addOneP
          (unwrapTracers [Tracer.mk (Value.dense [3])]) []).map
        (fun o => (o, false)))
  ∧ (dispatchStep env0 (regFuel 1) pjitP
        (unwrapTracers [Tracer.mk (Value.dense [3])]) [] =
      (pjitMethod (regFuel 0) (unwrapTracers [Tracer.mk (Value.dense [3])]) []).map
        (fun o => (o, true))) :=
  ⟨(C2_dispatch_precedence env0 (regFuel 0) addOneP
      [Tracer.mk (Value.dense [3])] []).1 rfl,
   (C2_dispatch_precedence env0 (regFuel 1) pjitP
      [Tracer.mk (Value.dense [3])] []).2.2
      (pjitDispatch (regFuel 0)) (pjitMethod (regFuel 0)) rfl rfl⟩

/-- Claim C4. A custom Value instance reaching the pure-injection path (not
passed across the `quaxify` boundary as an argument) fails with the
boundary-violation `TypeError`, whose message identifies the offending
type; the error is returned, never retried. -/
theorem C4_boundary_violation (env : TypeEnv) (ty : Nat) (payload : List Arr) :
    _QuaxTrace.pure env (Leaf.value (Value.custom ty payload)) =
      Except.error (QErr.boundaryViolation (env.name ty))
  ∧ full_raise env (Leaf.value (Value.custom ty payload)) =
      Except.error (QErr.boundaryViolation (env.name ty)) :=
  ⟨rfl, rfl⟩

/-- Claim C6. For every plain array, wrapping it through pure injection into a
`_DenseArrayValue`-backed tracer and unwrapping the tracer yields back
exactly the original array. -/
theorem C6_roundtrip (env : TypeEnv) (a : Arr) :
    (_QuaxTrace.pure env (Leaf.arr a)).bind
        (fun t => _unwrap_tracer env (Leaf.tracer t)) =
      Except.ok (Leaf.arr a) := rfl

/-- Claim C3. In Default Materialization: zero distinct overrides of the
default policy use the base fallback (materialise every custom operand and
invoke the built-in implementation); exactly one distinct override is used
as the fallback; more than one raises the `TypeError` identifying the
operand types in conflict. -/
theorem C3_default_ambiguity (env : TypeEnv) (p : Prim)
    (values : List Operand) (params : Params) :
    (overridesOf env values = [] →
      _default_process env p values params = Value.default env p values params)
  ∧ (∀ k, overridesOf env values = [k] →
      _default_process env p values params =
        env.overrideImpl k p.id values params)
  ∧ (∀ k1 k2 rest, overridesOf env values = k1 :: k2 :: rest →
      _default_process env p values params =
        Except.error (QErr.ambiguousDefaults (typesOf env values))) := by
  refine ⟨fun h => ?_, fun k h => ?_, fun k1 k2 rest h => ?_⟩ <;>
    simp only [_default_process, h]

/-- Witness for C3: one operand of `TypeA` and one of `TypeB` (two distinct
overrides) raise the ambiguous-default error; two operands of `TypeA` only
run the single override of `TypeA` instead of erroring. -/
theorem C3_default_ambiguity_witness :
    (_default_process env0 addOneP
        [Operand.val (Value.custom 0 [[1]]), Operand.val (Value.custom 1 [[2]])] [] =
      Except.error (QErr.ambiguousDefaults
        (typesOf env0
          [Operand.val (Value.custom 0 [[1]]), Operand.val (Value.custom 1 [[2]])])))
  ∧ (_default_process env0 addOneP
        [Operand.val (Value.custom 0 [[1]]), Operand.val (Value.custom 0 [[2]])] [] =
      env0.overrideImpl 0 addOneP.id
        [Operand.val (Value.custom 0 [[1]]), Operand.val (Value.custom 0 [[2]])] []) :=
  ⟨(C3_default_ambiguity env0 addOneP
      [Operand.val (Value.custom 0 [[1]]), Operand.val (Value.custom 1 [[2]])] []).2.2
      0 1 [] rfl,
   (C3_default_ambiguity env0 addOneP
      [Operand.val (Value.custom 0 [[1]]), Operand.val (Value.custom 0 [[2]])] []).2.1
      0 rfl⟩

/-- Claim C10. The ambiguity check compares override identities, not operand
types: two distinct Value subclasses inheriting the same single `default`
override from a common ancestor count as one override, so an unregistered
primitive called with one operand of each runs that shared override and
does not raise the ambiguous-default error. -/
theorem C10_override_identity (env : TypeEnv) (p : Prim) (params : Params)
    (tyC tyD : Nat) (pc pd : List Arr) (k : Nat)
    (_hne : tyC ≠ tyD)
    (hC : env.overrideId tyC = some k) (hD : env.overrideId tyD = some k) :
    _default_process env p
        [Operand.val (Value.custom tyC pc), Operand.val (Value.custom tyD pd)]
        params =
      env.overrideImpl k p.id
        [Operand.val (Value.custom tyC pc), Operand.val (Value.custom tyD pd)]
        params := by
  have hov : overridesOf env
      [Operand.val (Value.custom tyC pc), Operand.val (Value.custom tyD pd)]
        = [k] := by
    simp [overridesOf, overrideStep, hC, hD]
  simp only [_default_process, hov]

/-- Witness for C10: `TypeC` (tag 2) and `TypeD` (tag 3) are distinct
subclasses sharing override 2; the unregistered primitive call with one
operand of each runs that override rather than raising. -/
theorem C10_override_identity_witness :
    _default_process env0 addOneP
        [Operand.val (Value.custom 2 [[1]]), Operand.val (Value.custom 3 [[2]])]
        [] =
      env0.overrideImpl 2 addOneP.id
        [Operand.val (Value.custom 2 [[1]]), Operand.val (Value.custom 3 [[2]])]
        [] :=
  C10_override_identity env0 addOneP [] 2 3 [[1]] [[2]] 2 (by decide) rfl rfl

/-- Claim C9. After interception produces its results, every result is
wrapped into a new tracer of the current trace (plain arrays re-wrapped as
`_DenseArrayValue`): a `multiple_results` primitive has each element of its
result sequence wrapped independently into its own tracer, and a
single-result primitive has its single result wrapped. -/
theorem C9_result_wrapping (env : TypeEnv) (reg : Registry) (p : Prim)
    (tracers : List Tracer) (params : Params) :
    (∀ xs b, p.multiple_results = true →
      dispatchStep env reg p (unwrapTracers tracers) params =
        Except.ok (PyOut.many xs, b) →
      process_primitive env reg p tracers params =
        Except.ok (ProcOut.multi (xs.map fun x => Tracer.mk (_wrap_if_array x)), b))
  ∧ (∀ x b, p.multiple_results = false →
      dispatchStep env reg p (unwrapTracers tracers) params =
        Except.ok (PyOut.one x, b) →
      process_primitive env reg p tracers params =
        Except.ok (ProcOut.single (Tracer.mk (_wrap_if_array x)), b)) := by
  refine ⟨fun xs b hm h => ?_, fun x b hm h => ?_⟩ <;>
    simp [process_primitive, h, wrapResults, hm, except_ok_bind]

/-- Witness for C9: the `multiple_results` primitive `dupP` has both its
result arrays wrapped into their own dense tracers; the single-result
primitive `addOneP` has its one result wrapped. -/
theorem C9_result_wrapping_witness :
    (process_primitive env0 (regFuel 0) dupP
        [Tracer.mk (Value.dense [3]), Tracer.mk (Value.dense [4])] [] =
      Except.ok (ProcOut.multi
        [Tracer.mk (Value.dense [3]), Tracer.mk (Value.dense [4])], false))
  ∧ (process_primitive env0 (regFuel 0) addOneP [Tracer.mk (Value.dense [3])] [] =
      Except.ok (ProcOut.single (Tracer.mk (Value.dense [4])), false)) :=
  ⟨(C9_result_wrapping env0 (regFuel 0) dupP
      [Tracer.mk (Value.dense [3]), Tracer.mk (Value.dense [4])] []).1
      [Operand.arr [3], Operand.arr [4]] false rfl rfl,
   (C9_result_wrapping env0 (regFuel 0) addOneP
      [Tracer.mk (Value.dense [3])] []).2
      (Operand.arr [4]) false rfl rfl⟩

/-- Claim C7. Every invocation of the wrapped function pushes a fresh
trace-context and pops it on every exit path: for a body that is balanced
in its own nested pushes and pops, the stack after the call equals the
stack before it, and the body result — normal or raising — propagates
unchanged to the caller. -/
theorem C7_context_popped {α : Type}
    (body : TraceStack → Except QErr α × TraceStack) (s : TraceStack)
    (hbal : ∀ s', (body s').2 = s') :
    (quaxifyCall body s).2 = s ∧
    (quaxifyCall body s).1 = (body (s.length :: s)).1 := by
  refine ⟨?_, rfl⟩
  show (body (s.length :: s)).2.tail = s
  rw [hbal]
  rfl

/-- Witness for C7: a body that raises still leaves the stack as it was,
and the error propagates to the caller already popped. -/
theorem C7_context_popped_witness :
    (quaxifyCall (fun s' =>
        ((Except.error (QErr.other "user function raised") : Except QErr Unit),
          s')) ([] : TraceStack)).2 = ([] : TraceStack) ∧
    (quaxifyCall (fun s' =>
        ((Except.error (QErr.other "user function raised") : Except QErr Unit),
          s')) ([] : TraceStack)).1 =
      (Except.error (QErr.other "user function raised") : Except QErr Unit) :=
  C7_context_popped (fun s' =>
    ((Except.error (QErr.other "user function raised") : Except QErr Unit), s'))
    [] (fun _ => rfl)

/-- Claim C8. The compiled-subgraph rule: with the inline flag set, the
internal jaxpr is re-run as an ordinary quaxified function over the
already-unwrapped operands; and the `inline=False` path — flatten the
operands, wrap the rebuilt call, hand it to the host compilation entry
point — returns a result identical in structure and values to the
`inline=True` path on the same operands. -/
theorem C8_pjit_equivalence (env : TypeEnv) (reg : Registry)
    (jaxpr : Program) (args : List Operand) :
    pjitRule env reg jaxpr true args = evalQuax env reg jaxpr args ∧
    pjitRule env reg jaxpr false args = pjitRule env reg jaxpr true args := by
  refine ⟨rfl, ?_⟩
  show jaxJit
      (fun xs => evalQuax env reg jaxpr (unflattenItems (flattenItems args).2 xs))
      (flattenItems args).1 = evalQuax env reg jaxpr args
  rw [jaxJit, unflattenItems_flattenItems]

/-- Claim C5. In the derivative-sub-function wrapper: a positionally paired
primal and tangent output of different concrete Value classes are both
forced through `materialise()`, after which the pair has matching concrete
types (both are plain arrays); and if after this reconciliation the
flattened structural descriptors of the primal and tangent collections
still disagree, the fatal consistency `ValueError` is raised. -/
theorem C5_jvp_reconciliation (env : TypeEnv) (outValues : List Value) :
    (∀ primal tangent p t, classOf primal ≠ classOf tangent →
      jvpReconcilePair env primal tangent = Except.ok (p, t) →
      ∃ a b, p = Operand.arr a ∧ t = Operand.arr b ∧
        primal.materialise env = Except.ok a ∧
        tangent.materialise env = Except.ok b)
  ∧ (∀ pairs,
      ((outValues.take (outValues.length / 2)).zip
          (outValues.drop (outValues.length / 2))).mapM
          (fun pt => jvpReconcilePair env pt.1 pt.2) =
        Except.ok pairs →
      (flattenItems (pairs.map Prod.fst)).2 ≠
        (flattenItems (pairs.map Prod.snd)).2 →
      _custom_jvp_jvp_wrap_out env outValues =
        Except.error QErr.structuralMismatch) := by
  constructor
  · intro primal tangent p t hcls hok
    rw [jvpReconcilePair, if_pos hcls] at hok
    cases hp : primal.materialise env with
    | error e => rw [hp, except_error_bind] at hok; exact absurd hok (by simp)
    | ok a =>
        rw [hp, except_ok_bind] at hok
        cases ht : tangent.materialise env with
        | error e => rw [ht, except_error_bind] at hok; exact absurd hok (by simp)
        | ok b =>
            rw [ht, except_ok_bind] at hok
            obtain ⟨hpa, htb⟩ := Prod.mk.injEq .. ▸ Except.ok.inj hok
            exact ⟨a, b, hpa.symm, htb.symm, rfl, rfl⟩
  · intro pairs hpairs hne
    rw [_custom_jvp_jvp_wrap_out, hpairs, except_ok_bind, if_pos hne]

/-- Witness for C5: a custom primal paired with a dense tangent (the
symbolic-zero case, the zero materialised upstream into a plain zero array)
is reconciled by materialising both to plain arrays of matching type; and a
primal/tangent output list whose flattened treedefs disagree raises the
consistency error. -/
theorem C5_jvp_reconciliation_witness :
    (∃ a b, Operand.arr ([1] : Arr) = Operand.arr a ∧
      Operand.arr ([0] : Arr) = Operand.arr b ∧
      (Value.custom 0 [[1]]).materialise env0 = Except.ok a ∧
      (Value.dense [0]).materialise env0 = Except.ok b)
  ∧ _custom_jvp_jvp_wrap_out env0
        [Value.custom 0 [[1]], Value.custom 0 [[1], [2]]] =
      Except.error QErr.structuralMismatch :=
  ⟨(C5_jvp_reconciliation env0 []).1 (Value.custom 0 [[1]]) (Value.dense [0])
      (Operand.arr [1]) (Operand.arr [0]) (by decide) rfl,
   (C5_jvp_reconciliation env0
      [Value.custom 0 [[1]], Value.custom 0 [[1], [2]]]).2
      [(Operand.val (Value.custom 0 [[1]]), Operand.val (Value.custom 0 [[1], [2]]))]
      rfl (by decide)⟩

/-- Claim C1, counterexample. The claim states that with plain-array inputs
no registered dispatch rule is ever consulted during the wrapped call.  The
source itself registers a rule for `pjit_p` whose signature
`*args: Union[ArrayLike, ArrayValue]` matches plain arrays: running the
wrapped program consisting of one `pjit` call on the plain input `[5]`
invokes that registered rule (the instrumentation flag is `true`), even
though the returned result still equals the unwrapped `f(x)`. -/
theorem C1_transparency_counterexample :
    evalDirect mainProg [[5]] = some [6] ∧
    evalQuax env0 (regFuel 1) mainProg [Operand.arr [5]] =
      Except.ok (Operand.arr [6], true) := ⟨rfl, rfl⟩

/-- Claim C1, amended. For a wrapped program over single-result primitives
with plain-array inputs, whenever every registered rule that resolves for
plain-array operand types returns exactly the built-in result (as the
only pre-registered rule, the `pjit` rule, does — and vacuously so for a
primitive with no registry entry or whose resolution signals not-found),
`quaxify(f)(x)` returns exactly the plain-array result of `f(x)`: every
plain operand materialises to itself, so Default Materialization reduces
to the built-in implementation.  Registered rules may be consulted along
the way; they cannot change the result. -/
theorem C1_transparency (env : TypeEnv) (reg : Registry) (prog : Program)
    (inputs : List Arr) (out : Arr)
    (H : ∀ e ∈ prog.eqns, EqnTransparent reg e)
    (hd : evalDirect prog inputs = some out) :
    (evalQuax env reg prog (inputs.map Operand.arr)).map Prod.fst =
      Except.ok (Operand.arr out) := by
  rw [evalDirect] at hd
  cases hres : evalDirectAux prog.eqns inputs with
  | none => rw [hres, option_none_bind] at hd; exact absurd hd (by simp)
  | some venv =>
      rw [hres, option_some_bind] at hd
      obtain ⟨b, hq⟩ := evalQuaxAux_transparent env reg prog.eqns H
        inputs venv false hres
      have hin : (inputs.map Operand.arr).map wrapInput =
          inputs.map fun a => Tracer.mk (Value.dense a) := by
        rw [List.map_map]; rfl
      have hget : (venv.map fun a => Tracer.mk (Value.dense a))[prog.outvar]?
          = some (Tracer.mk (Value.dense out)) := by
        rw [List.getElem?_map, hd]; rfl
      simp only [evalQuax, hin, hq, except_ok_bind, hget, _unwrap_tracer,
        isArrayLike, full_raise]
      rfl

/-- Witness for C1 (amended): the single-equation program incrementing its
input, with nothing registered for its primitive, satisfies the rule
hypothesis vacuously, and the quaxified call returns exactly the direct
result. -/
theorem C1_transparency_witness :
    (evalQuax env0 (regFuel 0) subProg [Operand.arr [5]]).map Prod.fst =
      Except.ok (Operand.arr [6]) := by
  have H : ∀ e ∈ subProg.eqns, EqnTransparent (regFuel 0) e := by
    intro e he
    constructor
    · cases he with
      | head => rfl
      | tail _ h => cases h
    · intro rule m l params hr hres
      exact Option.noConfusion hr
  exact C1_transparency env0 (regFuel 0) subProg [[5]] [6] H rfl

end Quax
